import Mathlib

/-!
Verification of the ctx fragment-composition engine.

Each definition below is a shallow embedding of the corresponding Go
function from the repository (internal/parser/fragment.go,
internal/parser/splicing.go, internal/tui/build.go).  File contents are
modelled as lists of lines (bufio.Scanner strips line terminators, so
the Go code itself only ever sees a list of lines); Go maps are modelled
as association lists used only through key membership / lookup, which is
all the Go code uses them for apart from iteration order (Go map
iteration order is unspecified; where a definition below iterates a map
we fix a deterministic order and note that no theorem depends on it
beyond membership and emptiness).
-/

/-- Fragment mirrors parser.Fragment: a markdown fragment with its path,
declared tags and body content. -/
structure Fragment where
  path : String
  tags : List String
  content : String
deriving DecidableEq

/-- Character class of Go unicode.IsSpace restricted to the Latin-1
range (the only code points the repository ever feeds it):
space, tab, newline, vertical tab, form feed, carriage return,
next line, and no-break space. -/
def goIsSpace (c : Char) : Bool :=
  c = ' ' || c = '\t' || c = '\n' || c = '\x0B' || c = '\x0C' || c = '\r' ||
  c = '\u0085' || c = ' '

/-- Go strings.TrimSpace: remove leading and trailing white space. -/
def goTrimSpace (s : String) : String :=
  String.mk (((s.toList.dropWhile goIsSpace).reverse.dropWhile goIsSpace).reverse)

/-- Go strings.Split(s, ",") on the character list: split at every comma;
the empty input yields one empty part. -/
def splitCommaAux : List Char → List (List Char)
  | [] => [[]]
  | c :: rest =>
    match splitCommaAux rest with
    | [] => [[]]
    | t :: ts => if c = ',' then [] :: t :: ts else (c :: t) :: ts

/-- Go strings.Split(s, ","). -/
def splitComma (s : String) : List String :=
  (splitCommaAux s.toList).map String.mk

/-- The tag-list loop of ParseFragment: split the value on commas, trim
each token, append the non-empty ones in order. -/
def parseTagList (tagsStr : String) : List String :=
  (splitComma tagsStr).foldl
    (fun acc tok =>
      let tag := goTrimSpace tok
      if tag ≠ "" then acc ++ [tag] else acc) []

/-- The ctx-tags line match of ParseFragment.  The Go code matches the
regex `^ctx-tags:\s*(.+)$` and then applies strings.TrimSpace to the
captured group.  The regex matches exactly when the line starts with the
literal key "ctx-tags:" and at least one character follows; because the
captured group is immediately trimmed, the net value is the trimmed
remainder of the line after the key (when the remainder is all white
space both routes yield the empty string). -/
def lineTagValue (line : String) : Option String :=
  let key : List Char := "ctx-tags:".toList
  let cs := line.toList
  if cs.take key.length = key ∧ key.length < cs.length then
    some (goTrimSpace (String.mk (cs.drop key.length)))
  else none

/-- Tags contributed by one line read while inside the frontmatter. -/
def tagsOfLine (line : String) : List String :=
  match lineTagValue line with
  | some v => parseTagList v
  | none => []

/-- The mutable scanner state of ParseFragment. -/
structure ParseState where
  tags : List String
  contentLines : List String
  inFrontmatter : Bool
  frontmatterProcessed : Bool
deriving DecidableEq

/-- The body of the scanner loop of ParseFragment, processing one line. -/
def processLine (st : ParseState) (line : String) : ParseState :=
  if goTrimSpace line = "---" ∧ st.frontmatterProcessed = false then
    { st with
      inFrontmatter := !st.inFrontmatter
      frontmatterProcessed := st.inFrontmatter }
  else if st.inFrontmatter then
    { st with tags := st.tags ++ tagsOfLine line }
  else
    { st with contentLines := st.contentLines ++ [line] }

/-- ParseFragment on a file given as its list of lines: run the scanner
loop from the zero state and join the collected content lines with
newlines. -/
def ParseFragment (filePath : String) (lines : List String) : Fragment :=
  let st := lines.foldl processLine ⟨[], [], false, false⟩
  ⟨filePath, st.tags, String.intercalate "\n" st.contentLines⟩

/-- Go path/filepath.Base for slash-separated paths: empty input yields
".", trailing slashes are removed, everything up to the final slash is
dropped, and an all-slash input yields "/". -/
def filepathBase (p : String) : String :=
  if p = "" then "."
  else
    let stripped := p.toList.reverse.dropWhile (· = '/')
    let name := stripped.takeWhile (· ≠ '/')
    if name = [] then "/" else String.mk name.reverse

/-- CombineFragments: with noLocalOverride the two sequences are
concatenated (global then local); otherwise local fragments come first,
followed by the global fragments whose basename matches no local
fragment's basename.  The Go code keys a map by local basenames and uses
it only for membership, which list membership models exactly. -/
def CombineFragments (globalFragments localFragments : List Fragment)
    (noLocalOverride : Bool) : List Fragment :=
  if noLocalOverride then
    globalFragments ++ localFragments
  else
    let localBasenames := localFragments.map (fun f => filepathBase f.path)
    localFragments ++
      globalFragments.filter (fun g => !(localBasenames.contains (filepathBase g.path)))

/-- GetAllTags: the Go code inserts every tag of every fragment into a
map and returns its keys; iteration order of a Go map is unspecified, so
we return the first-occurrence deduplication.  No theorem below depends
on more than membership and emptiness of this list. -/
def GetAllTags (fragments : List Fragment) : List String :=
  ((fragments.map Fragment.tags).flatten).eraseDups

/-- FilterFragmentsByTags: an empty selection returns the input
unchanged; otherwise keep, in order, the fragments having at least one
tag in the selection (the Go loop appends the fragment and breaks at the
first matching tag, hence each fragment appears at most once). -/
def FilterFragmentsByTags (fragments : List Fragment)
    (selectedTags : List String) : List Fragment :=
  if selectedTags.length = 0 then fragments
  else fragments.filter (fun f => f.tags.any (fun t => selectedTags.contains t))

/-- SpliceFragments: join the contents with a blank-line separator; the
Go builder loop writes the separator before every fragment but the
first, which is exactly intercalation. -/
def SpliceFragments (fragments : List Fragment) : String :=
  String.intercalate "\n\n" (fragments.map Fragment.content)

/-- BuildOptions mirrors tui.BuildOptions (the configFile field plays no
role in the resolution logic modelled here). -/
structure BuildOptions where
  tags : List String
  nonInteractive : Bool
  outputFormats : List String
  outputFile : String
  stdout : Bool

/-- Config mirrors config.Config as consumed by the build logic:
the default tags and the output-format map.  The Go map[string]string is
modelled as an association list with (as in a Go map) pairwise distinct
keys; the code uses it through lookup, emptiness and key iteration. -/
structure Config where
  defaultTags : List String
  outputFormats : List (String × String)

/-- determineSelectedTags mirrors tui.determineSelectedTags.  The
interactive tag selector is an external collaborator; its outcome is
passed in as selectTagsRes. -/
def determineSelectedTags (opts : BuildOptions) (cfg : Config)
    (fragments : List Fragment)
    (selectTagsRes : Except String (List String)) :
    Except String (List String) :=
  let allTags := GetAllTags fragments
  if allTags.length = 0 then
    .error "no tags found in fragments"
  else if 0 < opts.tags.length then
    .ok opts.tags
  else if opts.nonInteractive then
    .ok cfg.defaultTags
  else
    match selectTagsRes with
    | .ok ts => .ok ts
    | .error e => .error ("tag selection failed: " ++ e)

/-- determineOutputFormats mirrors tui.determineOutputFormats.  The
interactive format selector is an external collaborator whose outcome is
passed in as selectFormatsRes.  In the non-interactive branch the Go
code iterates the configured map in unspecified order; we take the keys
in association-list order (no theorem depends on this order). -/
def determineOutputFormats (opts : BuildOptions) (cfg : Config)
    (selectFormatsRes : Except String (List String)) :
    Except String (List String × List String) :=
  if opts.stdout then
    .ok (["stdout"], [])
  else if 0 < opts.outputFormats.length then
    .ok (opts.outputFormats, [])
  else if opts.outputFile ≠ "" then
    .ok (["custom"], [opts.outputFile])
  else if opts.nonInteractive then
    if cfg.outputFormats.length = 0 then
      .error "no output formats configured and none specified"
    else
      .ok (cfg.outputFormats.map (fun p => p.1), [])
  else
    match selectFormatsRes with
    | .ok fs => .ok (fs, [])
    | .error e => .error ("output format selection failed: " ++ e)

/-- writeOutputFiles mirrors tui.writeOutputFiles as a pure function:
the first component is the returned error (if any), the second the list
of (filename, contents) pairs written before the function returned, in
write order.  The loop index i is carried explicitly because the custom
pseudo-format indexes customFiles by loop position. -/
def writeOutputFilesAux (output : String) (cfg : Config)
    (customFiles : List String) :
    List String → Nat → Except String Unit × List (String × String)
  | [], _ => (.ok (), [])
  | format :: rest, i =>
    if format = "stdout" then
      writeOutputFilesAux output cfg customFiles rest (i + 1)
    else if h : format = "custom" ∧ i < customFiles.length then
      let r := writeOutputFilesAux output cfg customFiles rest (i + 1)
      (r.1, (customFiles.get ⟨i, h.2⟩, output) :: r.2)
    else
      match cfg.outputFormats.lookup format with
      | some filename =>
        let r := writeOutputFilesAux output cfg customFiles rest (i + 1)
        (r.1, (filename, output) :: r.2)
      | none => (.error ("unknown output format: " ++ format), [])

/-- writeOutputFiles: run the loop from index 0. -/
def writeOutputFiles (output : String) (formats customFiles : List String)
    (cfg : Config) : Except String Unit × List (String × String) :=
  writeOutputFilesAux output cfg customFiles formats 0

/-- The observable outcome of one build invocation: the returned error
value, the files written, and the document printed to stdout (if any).
Console status messages such as the cancellation notice are not output
destinations and are not modelled. -/
structure BuildEffects where
  result : Except String Unit
  fileWrites : List (String × String)
  stdoutDoc : Option String

/-- handleOutput mirrors tui.handleOutput. -/
def handleOutput (opts : BuildOptions) (output : String)
    (formats customFiles : List String) (cfg : Config) : BuildEffects :=
  if opts.stdout then
    ⟨.ok (), [], some output⟩
  else
    let r := writeOutputFiles output formats customFiles cfg
    match r.1 with
    | .ok _ => ⟨.ok (), r.2, none⟩
    | .error e => ⟨.error ("failed to write output files: " ++ e), r.2, none⟩

/-- RunBuild mirrors tui.RunBuild from the point where configuration and
fragments have been loaded (loadConfigAndFragments performs file I/O and
is a collaborator here; its fragment-emptiness check precedes this
function).  The three interactive collaborators (tag selector, format
selector, confirmation prompt) are passed in as their outcomes. -/
def RunBuild (opts : BuildOptions) (cfg : Config)
    (fragments : List Fragment)
    (selectTagsRes selectFormatsRes : Except String (List String))
    (confirmRes : Except String Bool) : BuildEffects :=
  match determineSelectedTags opts cfg fragments selectTagsRes with
  | .error e => ⟨.error e, [], none⟩
  | .ok selectedTags =>
    let filteredFragments := FilterFragmentsByTags fragments selectedTags
    if filteredFragments.length = 0 then
      ⟨.error ("no fragments match the selected tags: " ++
        String.intercalate ", " selectedTags), [], none⟩
    else
      match determineOutputFormats opts cfg selectFormatsRes with
      | .error e => ⟨.error e, [], none⟩
      | .ok (selectedOutputFormats, outputFiles) =>
        if opts.nonInteractive then
          handleOutput opts (SpliceFragments filteredFragments)
            selectedOutputFormats outputFiles cfg
        else
          match confirmRes with
          | .error e => ⟨.error ("confirmation failed: " ++ e), [], none⟩
          | .ok false => ⟨.ok (), [], none⟩
          | .ok true =>
            handleOutput opts (SpliceFragments filteredFragments)
              selectedOutputFormats outputFiles cfg

/-- A node of the scanned directory tree: a regular file with its lines,
or a directory whose entries are (name, node) pairs listed in the
storage's native order.  On a real filesystem the names within one
directory are pairwise distinct; theorems needing that state it as a
hypothesis. -/
inductive FSNode where
  | file (lines : List String)
  | dir (entries : List (String × FSNode))

/-- Ordering of directory entries by name.  Go's sort.Strings used by
filepath.Walk compares strings byte-wise, which for UTF-8 agrees with
the code-point lexicographic order on the character lists. -/
def entryLe (a b : String × FSNode) : Prop := a.1.toList ≤ b.1.toList

instance : DecidableRel entryLe :=
  fun a b => inferInstanceAs (Decidable (a.1.toList ≤ b.1.toList))

/-- The per-directory sort performed by filepath.Walk's readDirNames
(sort.Strings on the entry names; with distinct names sorting the
entries by name is the same thing). -/
def sortEntries (es : List (String × FSNode)) : List (String × FSNode) :=
  List.insertionSort entryLe es

/-- Go strings.HasSuffix. -/
def goHasSuffix (s suf : String) : Bool :=
  s.toList.reverse.take suf.toList.length == suf.toList.reverse

/-- The markdown allow-list check of ScanFragments. -/
def isMarkdownPath (path : String) : Bool :=
  goHasSuffix path ".md" || goHasSuffix path ".markdown"

/-- One step of filepath.Walk as used by ScanFragments: the walk
function ignores directories themselves, parses every file whose path
passes the markdown allow-list, and descends into each directory's
entries in sorted name order, appending results in visit order. -/
def walkNode : String → FSNode → List Fragment
  | path, .file lines =>
    if isMarkdownPath path then [ParseFragment path lines] else []
  | path, .dir entries =>
    (sortEntries entries).attach.flatMap
      (fun e => walkNode (path ++ "/" ++ e.1.1) e.1.2)
termination_by _ t => sizeOf t
decreasing_by
  have hm2 : e.1 ∈ entries :=
    (List.perm_insertionSort entryLe entries).mem_iff.mp e.2
  have h1 : sizeOf e.1 < sizeOf entries := List.sizeOf_lt_of_mem hm2
  have h2 : sizeOf e.1.2 < sizeOf e.1 := by
    cases h : e.1 with
    | mk a b => simp +arith [h]
  simp only [FSNode.dir.sizeOf_spec]
  omega

/-- ScanFragments on an existing fragments directory: walk the rooted
tree (an absent directory returns the empty list before the walk and is
not modelled further). -/
def ScanFragments (fragmentsDir : String) (root : FSNode) : List Fragment :=
  walkNode fragmentsDir root

/-- Strict version of the entry ordering, used to show sorted entry
lists with distinct names are unique. -/
def entryLt (a b : String × FSNode) : Prop := a.1.toList < b.1.toList

instance : IsTotal (String × FSNode) entryLe :=
  ⟨fun a b => le_total a.1.toList b.1.toList⟩

instance : IsTrans (String × FSNode) entryLe :=
  ⟨fun _ _ _ h1 h2 => le_trans h1 h2⟩

instance : IsAntisymm (String × FSNode) entryLt :=
  ⟨fun _ _ h h2 => absurd h2 (lt_asymm h)⟩

/-- Basename of a fragment, the identity used for override comparison. -/
def fragBase (f : Fragment) : String := filepathBase f.path

/-- C2 counterexample: merging one global and one local fragment with
includeBoth=true yields the global copy first, not the local copy first
as the claim states. -/
theorem C2_counterexample :
    CombineFragments [⟨"/g/a.md", [], "G"⟩] [⟨"/l/b.md", [], "L"⟩] true ≠
      [⟨"/l/b.md", [], "L"⟩, ⟨"/g/a.md", [], "G"⟩] ∧
    CombineFragments [⟨"/g/a.md", [], "G"⟩] [⟨"/l/b.md", [], "L"⟩] true =
      [⟨"/g/a.md", [], "G"⟩, ⟨"/l/b.md", [], "L"⟩] := by
  constructor
  · decide
  · rfl

/-- C2 (amended): merging with includeBoth=true returns the global
sequence first, then the local sequence, concatenated verbatim; both
copies of any same-named fragment are retained, each exactly once, and
the result's length equals len(G) + len(L). -/
theorem C2_merge_includeBoth (G L : List Fragment) :
    CombineFragments G L true = G ++ L ∧
    (CombineFragments G L true).length = G.length + L.length ∧
    ∀ f : Fragment, (CombineFragments G L true).count f = G.count f + L.count f := by
  refine ⟨rfl, ?_, ?_⟩
  · show (G ++ L).length = G.length + L.length
    exact List.length_append G L
  · intro f
    show (G ++ L).count f = G.count f + L.count f
    exact List.count_append f G L

/-- C4: with includeBoth=false, for any basename present in both the
global and the local sequence, the merged result's fragments with that
basename are exactly the local ones (the global copy is dropped), and
when the local sequence holds that basename exactly once the fragment
appears exactly once in the result. -/
theorem C4_merge_override (G L : List Fragment) (b : String)
    (hG : b ∈ G.map fragBase) (hL : b ∈ L.map fragBase) :
    ((CombineFragments G L false).filter (fun f => fragBase f == b) =
      L.filter (fun f => fragBase f == b)) ∧
    ((L.map fragBase).count b = 1 →
      ((CombineFragments G L false).filter (fun f => fragBase f == b)).length = 1) := by
  have hcomb : CombineFragments G L false =
      L ++ G.filter
        (fun g => !((L.map (fun f => filepathBase f.path)).contains (filepathBase g.path))) := by
    rfl
  have hdrop : (G.filter
      (fun g => !((L.map (fun f => filepathBase f.path)).contains (filepathBase g.path)))).filter
      (fun f => fragBase f == b) = [] := by
    rw [List.filter_filter, List.filter_eq_nil_iff]
    intro g _
    intro hcontra
    rcases Bool.and_eq_true_iff.mp hcontra with ⟨hbase, hnot⟩
    have hb : filepathBase g.path = b := by
      simpa [fragBase] using hbase
    have hmemb : filepathBase g.path ∈ L.map (fun f => filepathBase f.path) := by
      rw [hb]
      simpa [fragBase] using hL
    have hmem : (L.map (fun f => filepathBase f.path)).contains (filepathBase g.path) = true :=
      List.elem_iff.mpr hmemb
    rw [hmem] at hnot
    simp at hnot
  have hmain : (CombineFragments G L false).filter (fun f => fragBase f == b) =
      L.filter (fun f => fragBase f == b) := by
    rw [hcomb, List.filter_append, hdrop, List.append_nil]
  refine ⟨hmain, ?_⟩
  intro hcount
  rw [hmain]
  have hlen : (L.map fragBase).count b = (L.filter (fun f => fragBase f == b)).length := by
    rw [List.count_eq_countP, List.countP_map, List.countP_eq_length_filter]
    rfl
  rw [hlen] at hcount
  exact hcount

/-- C4 witness: a concrete global/local pair sharing the basename
common.md. -/
theorem C4_merge_override_witness :
    ((CombineFragments [⟨"/g/common.md", ["g"], "GC"⟩, ⟨"/g/ts.md", ["ts"], "T"⟩]
        [⟨"/l/common.md", ["l"], "LC"⟩] false).filter
        (fun f => fragBase f == "common.md") =
      [⟨"/l/common.md", ["l"], "LC"⟩].filter (fun f => fragBase f == "common.md")) ∧
    (((CombineFragments [⟨"/g/common.md", ["g"], "GC"⟩, ⟨"/g/ts.md", ["ts"], "T"⟩]
        [⟨"/l/common.md", ["l"], "LC"⟩] false).filter
        (fun f => fragBase f == "common.md")).length = 1) := by
  have h := C4_merge_override
    [⟨"/g/common.md", ["g"], "GC"⟩, ⟨"/g/ts.md", ["ts"], "T"⟩]
    [⟨"/l/common.md", ["l"], "LC"⟩] "common.md" (by decide) (by decide)
  exact ⟨h.1, h.2 (by decide)⟩

/-- C8: tag filtering satisfies the identity law (empty selection
returns the input unchanged), is idempotent, and with a non-empty
selection returns in original order exactly the fragments sharing at
least one tag with the selection, each fragment value occurring as often
as in the input when it matches and not at all otherwise. -/
theorem C8_filter_identity_idempotent :
    (∀ F : List Fragment, FilterFragmentsByTags F [] = F) ∧
    (∀ (F : List Fragment) (T : List String),
      FilterFragmentsByTags (FilterFragmentsByTags F T) T = FilterFragmentsByTags F T) ∧
    (∀ (F : List Fragment) (T : List String), T ≠ [] →
      FilterFragmentsByTags F T =
        F.filter (fun f => f.tags.any (fun t => T.contains t))) ∧
    (∀ (F : List Fragment) (T : List String) (f : Fragment), T ≠ [] →
      (FilterFragmentsByTags F T).count f =
        if f.tags.any (fun t => T.contains t) then F.count f else 0) := by
  have hchar : ∀ (F : List Fragment) (T : List String), T ≠ [] →
      FilterFragmentsByTags F T =
        F.filter (fun f => f.tags.any (fun t => T.contains t)) := by
    intro F T hT
    have hlen : ¬ T.length = 0 := by
      simpa [List.length_eq_zero] using hT
    simp [FilterFragmentsByTags, hlen]
  refine ⟨?_, ?_, hchar, ?_⟩
  · intro F
    rfl
  · intro F T
    by_cases hT : T = []
    · subst hT
      rfl
    · rw [hchar _ _ hT, hchar _ _ hT, List.filter_filter]
      simp
  · intro F T f hT
    rw [hchar _ _ hT]
    by_cases hf : f.tags.any (fun t => T.contains t) = true
    · rw [if_pos hf]
      exact List.count_filter hf
    · have hf0 : f.tags.any (fun t => T.contains t) = false :=
        Bool.eq_false_iff.mpr hf
      rw [if_neg hf]
      rw [List.count_eq_zero]
      intro hmem
      have := List.of_mem_filter hmem
      exact hf this

/-- C8 witness: the filter laws instantiated at a concrete fragment list
and a concrete non-empty selection. -/
theorem C8_filter_identity_idempotent_witness :
    (FilterFragmentsByTags [(⟨"a.md", ["x"], "A"⟩ : Fragment)] [] =
      [(⟨"a.md", ["x"], "A"⟩ : Fragment)]) ∧
    (FilterFragmentsByTags
        (FilterFragmentsByTags
          [(⟨"a.md", ["x"], "A"⟩ : Fragment), ⟨"b.md", ["y"], "B"⟩] ["x"]) ["x"] =
      FilterFragmentsByTags
        [(⟨"a.md", ["x"], "A"⟩ : Fragment), ⟨"b.md", ["y"], "B"⟩] ["x"]) ∧
    (FilterFragmentsByTags
        [(⟨"a.md", ["x"], "A"⟩ : Fragment), ⟨"b.md", ["y"], "B"⟩] ["x"] =
      List.filter (fun f => f.tags.any (fun t => (["x"] : List String).contains t))
        [(⟨"a.md", ["x"], "A"⟩ : Fragment), ⟨"b.md", ["y"], "B"⟩]) ∧
    ((FilterFragmentsByTags
        [(⟨"a.md", ["x"], "A"⟩ : Fragment), ⟨"b.md", ["y"], "B"⟩] ["x"]).count
        ⟨"a.md", ["x"], "A"⟩ =
      if (Fragment.tags ⟨"a.md", ["x"], "A"⟩).any
          (fun t => (["x"] : List String).contains t) = true then
        List.count (⟨"a.md", ["x"], "A"⟩ : Fragment)
          [(⟨"a.md", ["x"], "A"⟩ : Fragment), ⟨"b.md", ["y"], "B"⟩]
      else 0) :=
  ⟨C8_filter_identity_idempotent.1 [(⟨"a.md", ["x"], "A"⟩ : Fragment)],
   C8_filter_identity_idempotent.2.1
     [(⟨"a.md", ["x"], "A"⟩ : Fragment), ⟨"b.md", ["y"], "B"⟩] ["x"],
   C8_filter_identity_idempotent.2.2.1
     [(⟨"a.md", ["x"], "A"⟩ : Fragment), ⟨"b.md", ["y"], "B"⟩] ["x"] (by decide),
   C8_filter_identity_idempotent.2.2.2
     [(⟨"a.md", ["x"], "A"⟩ : Fragment), ⟨"b.md", ["y"], "B"⟩] ["x"]
     ⟨"a.md", ["x"], "A"⟩ (by decide)⟩

/-- C9: tag filtering compares tags by exact string equality, so a
selected tag that is not literally equal to any tag of any fragment
(for instance one differing only in letter case or in surrounding
whitespace) matches no fragment. -/
theorem C9_filter_exact_equality (F : List Fragment) (t : String)
    (h : ∀ f ∈ F, t ∉ f.tags) :
    FilterFragmentsByTags F [t] = [] := by
  have hlen : ¬ ([t] : List String).length = 0 := by simp
  rw [FilterFragmentsByTags, if_neg hlen, List.filter_eq_nil_iff]
  intro f hf hany
  rcases List.any_eq_true.mp hany with ⟨s, hs, hcontains⟩
  have : s = t := by simpa using hcontains
  subst this
  exact h f hf hs

/-- C9 witness: a fragment tagged "common" is matched neither by the
case variant "Common" nor by the whitespace variant " common". -/
theorem C9_filter_exact_equality_witness :
    FilterFragmentsByTags [⟨"a.md", ["common"], "A"⟩] ["Common"] = [] ∧
    FilterFragmentsByTags [⟨"a.md", ["common"], "A"⟩] [" common"] = [] :=
  ⟨C9_filter_exact_equality [⟨"a.md", ["common"], "A"⟩] "Common" (by decide),
   C9_filter_exact_equality [⟨"a.md", ["common"], "A"⟩] " common" (by decide)⟩

/-- C1 counterexample: with explicit tags supplied but no fragment
declaring any tag, the resolver fails with the no-tags error instead of
using the explicit tags, because the candidate-set check runs before the
explicit-tags branch. -/
theorem C1_counterexample :
    determineSelectedTags ⟨["x"], false, [], "", false⟩ ⟨[], []⟩
      [⟨"f.md", [], "c"⟩] (.ok []) = .error "no tags found in fragments" ∧
    determineSelectedTags ⟨["x"], true, [], "", false⟩ ⟨["d"], []⟩
      [⟨"f.md", [], "c"⟩] (.ok []) = .error "no tags found in fragments" := by
  exact ⟨rfl, rfl⟩

/-- C1 (amended): the no-tags check runs first: whenever no fragment
declares any tag the resolver fails with the no-tags error, even when
explicit tags were supplied or when running non-interactively.  When at
least one tag exists, the strict priority order holds: non-empty
explicit tags are used exactly as given, unvalidated against the
available tags, and otherwise non-interactive execution uses the
configured default tags verbatim. -/
theorem C1_tag_resolution (opts : BuildOptions) (cfg : Config)
    (fragments : List Fragment)
    (selectTagsRes : Except String (List String)) :
    (GetAllTags fragments = [] →
      determineSelectedTags opts cfg fragments selectTagsRes =
        .error "no tags found in fragments") ∧
    (GetAllTags fragments ≠ [] → opts.tags ≠ [] →
      determineSelectedTags opts cfg fragments selectTagsRes = .ok opts.tags) ∧
    (GetAllTags fragments ≠ [] → opts.tags = [] → opts.nonInteractive = true →
      determineSelectedTags opts cfg fragments selectTagsRes = .ok cfg.defaultTags) := by
  refine ⟨?_, ?_, ?_⟩
  · intro hempty
    simp [determineSelectedTags, hempty]
  · intro hne htags
    have h1 : ¬ (GetAllTags fragments).length = 0 := by
      simpa [List.length_eq_zero] using hne
    have h2 : 0 < opts.tags.length := by
      cases h : opts.tags with
      | nil => exact absurd h htags
      | cons a l => simp [h]
    simp [determineSelectedTags, h1, h2]
  · intro hne htags hni
    have h1 : ¬ (GetAllTags fragments).length = 0 := by
      simpa [List.length_eq_zero] using hne
    simp [determineSelectedTags, h1, htags, hni]

/-- C1 witness: the three resolved branches at concrete inputs. -/
theorem C1_tag_resolution_witness :
    (determineSelectedTags ⟨["x"], false, [], "", false⟩ ⟨["d"], []⟩
        [⟨"f.md", [], "c"⟩] (.ok []) = .error "no tags found in fragments") ∧
    (determineSelectedTags ⟨["nonexistent"], false, [], "", false⟩ ⟨["d"], []⟩
        [⟨"f.md", ["a"], "c"⟩] (.ok []) = .ok ["nonexistent"]) ∧
    (determineSelectedTags ⟨[], true, [], "", false⟩ ⟨["d"], []⟩
        [⟨"f.md", ["a"], "c"⟩] (.ok []) = .ok ["d"]) :=
  ⟨(C1_tag_resolution ⟨["x"], false, [], "", false⟩ ⟨["d"], []⟩
      [⟨"f.md", [], "c"⟩] (.ok [])).1 (by decide),
   (C1_tag_resolution ⟨["nonexistent"], false, [], "", false⟩ ⟨["d"], []⟩
      [⟨"f.md", ["a"], "c"⟩] (.ok [])).2.1 (by decide) (by decide),
   (C1_tag_resolution ⟨[], true, [], "", false⟩ ⟨["d"], []⟩
      [⟨"f.md", ["a"], "c"⟩] (.ok [])).2.2 (by decide) rfl rfl⟩

/-- C6: output-destination resolution follows its priority table
first-match-wins (stdout flag, then explicit formats verbatim, then
explicit file as the custom pseudo-format, then in non-interactive mode
every configured format key with a failure when the mapping is empty),
and a requested format name absent from the configuration, with no
explicit file given, fails with the unknown-format error only at write
time, never at resolution time (the explicit-formats branch succeeds
with no reference to the configuration). -/
theorem C6_output_resolution (opts : BuildOptions) (cfg : Config)
    (selectFormatsRes : Except String (List String)) :
    (opts.stdout = true →
      determineOutputFormats opts cfg selectFormatsRes = .ok (["stdout"], [])) ∧
    (opts.stdout = false → opts.outputFormats ≠ [] →
      determineOutputFormats opts cfg selectFormatsRes =
        .ok (opts.outputFormats, [])) ∧
    (opts.stdout = false → opts.outputFormats = [] → opts.outputFile ≠ "" →
      determineOutputFormats opts cfg selectFormatsRes =
        .ok (["custom"], [opts.outputFile])) ∧
    (opts.stdout = false → opts.outputFormats = [] → opts.outputFile = "" →
      opts.nonInteractive = true → cfg.outputFormats = [] →
      determineOutputFormats opts cfg selectFormatsRes =
        .error "no output formats configured and none specified") ∧
    (opts.stdout = false → opts.outputFormats = [] → opts.outputFile = "" →
      opts.nonInteractive = true → cfg.outputFormats ≠ [] →
      determineOutputFormats opts cfg selectFormatsRes =
        .ok (cfg.outputFormats.map (fun p => p.1), [])) ∧
    (∀ (output f : String) (rest : List String),
      f ≠ "stdout" → cfg.outputFormats.lookup f = none →
      writeOutputFiles output (f :: rest) [] cfg =
        (.error ("unknown output format: " ++ f), [])) := by
  refine ⟨?_, ?_, ?_, ?_, ?_, ?_⟩
  · intro hs
    simp [determineOutputFormats, hs]
  · intro hs hne
    have h2 : 0 < opts.outputFormats.length := by
      cases h : opts.outputFormats with
      | nil => exact absurd h hne
      | cons a l => simp [h]
    simp [determineOutputFormats, hs, h2]
  · intro hs hfmts hfile
    simp [determineOutputFormats, hs, hfmts, hfile]
  · intro hs hfmts hfile hni hcfg
    simp [determineOutputFormats, hs, hfmts, hfile, hni, hcfg]
  · intro hs hfmts hfile hni hcfg
    have h2 : ¬ cfg.outputFormats.length = 0 := by
      simpa [List.length_eq_zero] using hcfg
    simp [determineOutputFormats, hs, hfmts, hfile, hni, h2]
  · intro output f rest hf hlookup
    rw [writeOutputFiles, writeOutputFilesAux]
    rw [if_neg hf]
    have hcond : ¬ (f = "custom" ∧ 0 < ([] : List String).length) := by
      simp
    rw [dif_neg hcond, hlookup]

/-- C6 witness: every branch of the priority table and the write-time
failure at concrete inputs; the second branch's format name is absent
from a non-empty configuration and still resolves verbatim. -/
theorem C6_output_resolution_witness :
    (determineOutputFormats ⟨[], false, [], "", true⟩ ⟨[], [("md", "ctx.md")]⟩
        (.ok []) = .ok (["stdout"], [])) ∧
    (determineOutputFormats ⟨[], false, ["html"], "", false⟩ ⟨[], [("md", "ctx.md")]⟩
        (.ok []) = .ok (["html"], [])) ∧
    (determineOutputFormats ⟨[], false, [], "out.txt", false⟩ ⟨[], [("md", "ctx.md")]⟩
        (.ok []) = .ok (["custom"], ["out.txt"])) ∧
    (determineOutputFormats ⟨[], true, [], "", false⟩ ⟨[], []⟩
        (.ok []) = .error "no output formats configured and none specified") ∧
    (determineOutputFormats ⟨[], true, [], "", false⟩ ⟨[], [("md", "ctx.md")]⟩
        (.ok []) = .ok (["md"], [])) ∧
    (writeOutputFiles "doc" ["html"] [] ⟨[], [("md", "ctx.md")]⟩ =
      (.error ("unknown output format: " ++ "html"), [])) :=
  ⟨(C6_output_resolution ⟨[], false, [], "", true⟩ ⟨[], [("md", "ctx.md")]⟩ (.ok [])).1 rfl,
   (C6_output_resolution ⟨[], false, ["html"], "", false⟩ ⟨[], [("md", "ctx.md")]⟩
      (.ok [])).2.1 rfl (by decide),
   (C6_output_resolution ⟨[], false, [], "out.txt", false⟩ ⟨[], [("md", "ctx.md")]⟩
      (.ok [])).2.2.1 rfl rfl (by decide),
   (C6_output_resolution ⟨[], true, [], "", false⟩ ⟨[], []⟩ (.ok [])).2.2.2.1
      rfl rfl rfl rfl rfl,
   (C6_output_resolution ⟨[], true, [], "", false⟩ ⟨[], [("md", "ctx.md")]⟩
      (.ok [])).2.2.2.2.1 rfl rfl rfl rfl (by decide),
   (C6_output_resolution ⟨[], true, [], "", false⟩ ⟨[], [("md", "ctx.md")]⟩
      (.ok [])).2.2.2.2.2 "doc" "html" [] (by decide) rfl⟩

/-- C7: when the interactive confirmation collaborator reports a user
cancellation, the build returns without error and writes no output to
any destination; moreover whenever the confirmation answer is a
cancellation (whether or not an earlier stage failed), no file is
written and no document is printed, since nothing is written before the
final splice step. -/
theorem C7_cancellation_noop (opts : BuildOptions) (cfg : Config)
    (fragments : List Fragment)
    (selectTagsRes selectFormatsRes : Except String (List String))
    (hni : opts.nonInteractive = false) :
    (∀ selectedTags formats files,
      determineSelectedTags opts cfg fragments selectTagsRes = .ok selectedTags →
      FilterFragmentsByTags fragments selectedTags ≠ [] →
      determineOutputFormats opts cfg selectFormatsRes = .ok (formats, files) →
      RunBuild opts cfg fragments selectTagsRes selectFormatsRes (.ok false) =
        ⟨.ok (), [], none⟩) ∧
    ((RunBuild opts cfg fragments selectTagsRes selectFormatsRes (.ok false)).fileWrites =
        [] ∧
      (RunBuild opts cfg fragments selectTagsRes selectFormatsRes (.ok false)).stdoutDoc =
        none) := by
  constructor
  · intro selectedTags formats files hsel hfil hfmt
    have hlen : ¬ (FilterFragmentsByTags fragments selectedTags).length = 0 := by
      simpa [List.length_eq_zero] using hfil
    simp [RunBuild, hsel, hfmt, hlen, hni]
  · rw [RunBuild]
    repeat' split
    all_goals try exact ⟨rfl, rfl⟩
    all_goals try simp_all
    all_goals split <;> exact ⟨rfl, rfl⟩

/-- C7 witness: a concrete interactive invocation whose confirmation
answer is a cancellation terminates as a successful no-op. -/
theorem C7_cancellation_noop_witness :
    RunBuild ⟨["a"], false, ["md"], "", false⟩ ⟨[], [("md", "ctx.md")]⟩
      [⟨"f.md", ["a"], "body"⟩] (.ok []) (.ok []) (.ok false) =
      ⟨.ok (), [], none⟩ :=
  (C7_cancellation_noop ⟨["a"], false, ["md"], "", false⟩ ⟨[], [("md", "ctx.md")]⟩
    [⟨"f.md", ["a"], "body"⟩] (.ok []) (.ok []) rfl).1
    ["a"] ["md"] [] rfl (by decide) rfl

/-- Scanner-loop invariant: while outside the frontmatter, with the
header not yet opened, marker-free lines are accumulated as content. -/
theorem foldl_processLine_content (lines : List String) :
    ∀ (tg cl : List String) (proc : Bool),
      (∀ l ∈ lines, goTrimSpace l ≠ "---") →
      lines.foldl processLine ⟨tg, cl, false, proc⟩ =
        ⟨tg, cl ++ lines, false, proc⟩ := by
  induction lines with
  | nil => intro tg cl proc _; simp
  | cons l ls ih =>
    intro tg cl proc hmark
    have hl : goTrimSpace l ≠ "---" := hmark l (List.mem_cons_self l ls)
    have hstep : processLine ⟨tg, cl, false, proc⟩ l = ⟨tg, cl ++ [l], false, proc⟩ := by
      rw [processLine]
      rw [if_neg (by simp [hl])]
      rfl
    rw [List.foldl_cons, hstep, ih tg (cl ++ [l]) proc
      (fun x hx => hmark x (List.mem_cons_of_mem l hx))]
    simp

/-- Scanner-loop invariant: once the frontmatter has been processed, all
lines (markers included) are accumulated as content. -/
theorem foldl_processLine_processed (lines : List String) :
    ∀ (tg cl : List String),
      lines.foldl processLine ⟨tg, cl, false, true⟩ =
        ⟨tg, cl ++ lines, false, true⟩ := by
  induction lines with
  | nil => intro tg cl; simp
  | cons l ls ih =>
    intro tg cl
    have hstep : processLine ⟨tg, cl, false, true⟩ l = ⟨tg, cl ++ [l], false, true⟩ := by
      rw [processLine]
      rw [if_neg (by simp)]
      rfl
    rw [List.foldl_cons, hstep, ih tg (cl ++ [l])]
    simp

/-- Scanner-loop invariant: while inside a frontmatter that never
closes, marker-free lines contribute their ctx-tags and nothing becomes
content. -/
theorem foldl_processLine_header (lines : List String) :
    ∀ (tg cl : List String),
      (∀ l ∈ lines, goTrimSpace l ≠ "---") →
      lines.foldl processLine ⟨tg, cl, true, false⟩ =
        ⟨tg ++ lines.flatMap tagsOfLine, cl, true, false⟩ := by
  induction lines with
  | nil => intro tg cl _; simp
  | cons l ls ih =>
    intro tg cl hmark
    have hl : goTrimSpace l ≠ "---" := hmark l (List.mem_cons_self l ls)
    have hstep : processLine ⟨tg, cl, true, false⟩ l = ⟨tg ++ tagsOfLine l, cl, true, false⟩ := by
      rw [processLine]
      rw [if_neg (by simp [hl])]
      rfl
    rw [List.foldl_cons, hstep, ih (tg ++ tagsOfLine l) cl
      (fun x hx => hmark x (List.mem_cons_of_mem l hx))]
    simp

/-- Processing an opening or closing marker line. -/
theorem processLine_marker (st : ParseState) (l : String)
    (hl : goTrimSpace l = "---") (hproc : st.frontmatterProcessed = false) :
    processLine st l = ⟨st.tags, st.contentLines, !st.inFrontmatter, st.inFrontmatter⟩ := by
  rw [processLine, if_pos ⟨hl, hproc⟩]

/-- C3 counterexample: a file whose header opens but never closes does
not yield an empty tag list with the full file as content; instead the
remainder is treated as header, its ctx-tags line still contributes a
tag, and the content is empty. -/
theorem C3_counterexample :
    ParseFragment "f.md" ["---", "ctx-tags: a", "body"] = ⟨"f.md", ["a"], ""⟩ ∧
    (ParseFragment "f.md" ["---", "ctx-tags: a", "body"]).tags ≠ [] ∧
    (ParseFragment "f.md" ["---", "ctx-tags: a", "body"]).content ≠
      String.intercalate "\n" ["---", "ctx-tags: a", "body"] := by
  refine ⟨rfl, ?_, ?_⟩
  · decide
  · decide

/-- C3 (amended): a file containing no line that trims to the boundary
marker parses to an empty tag list with the entire file as content; a
file whose header opens on the first line and is never closed treats the
whole remainder as header: ctx-tags lines there still contribute tags
and the content is empty. -/
theorem C3_parse_headerless (p : String) (lines : List String)
    (hmark : ∀ l ∈ lines, goTrimSpace l ≠ "---") :
    (ParseFragment p lines = ⟨p, [], String.intercalate "\n" lines⟩) ∧
    (ParseFragment p ("---" :: lines) = ⟨p, lines.flatMap tagsOfLine, ""⟩) := by
  constructor
  · rw [ParseFragment]
    rw [foldl_processLine_content lines [] [] false hmark]
    simp
  · rw [ParseFragment, List.foldl_cons]
    have hm : processLine ⟨[], [], false, false⟩ "---" = ⟨[], [], true, false⟩ := by
      rw [processLine_marker ⟨[], [], false, false⟩ "---" rfl rfl]
      rfl
    rw [hm, foldl_processLine_header lines [] [] hmark]
    rfl

/-- C3 witness: both parts at a concrete marker-free file body. -/
theorem C3_parse_headerless_witness :
    (ParseFragment "f.md" ["hello", "world"] =
      ⟨"f.md", [], String.intercalate "\n" ["hello", "world"]⟩) ∧
    (ParseFragment "f.md" ("---" :: ["hello", "world"]) =
      ⟨"f.md", (["hello", "world"] : List String).flatMap tagsOfLine, ""⟩) :=
  C3_parse_headerless "f.md" ["hello", "world"] (by decide)

/-- Concatenation of strings concatenates their character lists. -/
theorem toList_append_eq (s t : String) : (s ++ t).toList = s.toList ++ t.toList := by
  cases s
  cases t
  rfl

/-- The tag-list loop, with its accumulator generalized: it appends the
trimmed non-empty tokens in order. -/
theorem tagLoop_eq (toks : List String) :
    ∀ acc : List String,
      toks.foldl
        (fun acc tok =>
          let tag := goTrimSpace tok
          if tag ≠ "" then acc ++ [tag] else acc) acc =
      acc ++ (toks.map goTrimSpace).filter (fun t => t ≠ "") := by
  induction toks with
  | nil => intro acc; simp
  | cons t ts ih =>
    intro acc
    rw [List.foldl_cons, ih]
    by_cases ht : goTrimSpace t = ""
    · simp [ht]
    · simp [ht]

/-- C5 counterexample: the ctx-tags key is matched case-sensitively and
admits no whitespace between the key and the colon: the case variant
and the space-before-colon variant contribute no tags, while the exact
lowercase key does. -/
theorem C5_counterexample :
    ParseFragment "f.md" ["---", "CTX-TAGS: a", "---"] = ⟨"f.md", [], ""⟩ ∧
    ParseFragment "f.md" ["---", "ctx-tags : a", "---"] = ⟨"f.md", [], ""⟩ ∧
    ParseFragment "f.md" ["---", "ctx-tags: a", "---"] = ⟨"f.md", ["a"], ""⟩ := by
  exact ⟨rfl, rfl, rfl⟩

/-- C5 (amended): while inside the header region, exactly the lines
starting with the literal lowercase key "ctx-tags:" immediately followed
by the colon (whitespace allowed only after the colon) contribute tags:
the remainder of the line is trimmed and split on commas, each token is
trimmed, tokens empty after trimming are discarded, order of first
appearance is preserved, and duplicate tokens are retained. -/
theorem C5_header_tags (p : String) (body tail : List String) (rest line s : String)
    (hmark : ∀ l ∈ body, goTrimSpace l ≠ "---")
    (hrest : rest ≠ "")
    (hline : line.toList.take 9 ≠ "ctx-tags:".toList) :
    (ParseFragment p ("---" :: (body ++ "---" :: tail)) =
      ⟨p, body.flatMap tagsOfLine, String.intercalate "\n" tail⟩) ∧
    (lineTagValue ("ctx-tags:" ++ rest) = some (goTrimSpace rest)) ∧
    (tagsOfLine line = []) ∧
    (parseTagList s = ((splitComma s).map goTrimSpace).filter (fun t => t ≠ "")) := by
  refine ⟨?_, ?_, ?_, ?_⟩
  · rw [ParseFragment, List.foldl_cons]
    have hm : processLine ⟨[], [], false, false⟩ "---" = ⟨[], [], true, false⟩ := by
      rw [processLine_marker ⟨[], [], false, false⟩ "---" rfl rfl]
      rfl
    rw [hm, List.foldl_append, foldl_processLine_header body [] [] hmark,
      List.foldl_cons]
    simp only [List.nil_append]
    have hm2 : processLine ⟨body.flatMap tagsOfLine, [], true, false⟩ "---" =
        ⟨body.flatMap tagsOfLine, [], false, true⟩ := by
      rw [processLine_marker ⟨body.flatMap tagsOfLine, [], true, false⟩ "---" rfl rfl]
      rfl
    rw [hm2, foldl_processLine_processed tail (body.flatMap tagsOfLine) []]
    simp
  · rw [lineTagValue]
    have hx : ("ctx-tags:" ++ rest).toList = "ctx-tags:".toList ++ rest.toList :=
      toList_append_eq "ctx-tags:" rest
    have hkeylen : ("ctx-tags:".toList).length = 9 := rfl
    have htake : (("ctx-tags:".toList ++ rest.toList).take ("ctx-tags:".toList).length) =
        "ctx-tags:".toList := List.take_left "ctx-tags:".toList rest.toList
    have hpos : 0 < rest.toList.length := by
      rw [List.length_pos]
      intro hcontra
      apply hrest
      rw [show ("" : String) = String.mk [] from rfl, show rest = String.mk rest.toList from rfl,
        hcontra]
    have hlt : ("ctx-tags:".toList).length <
        ("ctx-tags:".toList ++ rest.toList).length := by
      rw [List.length_append]
      omega
    rw [if_pos]
    · rw [hx, List.drop_left]
      rfl
    · rw [hx]
      exact ⟨htake, hlt⟩
  · rw [tagsOfLine, lineTagValue]
    rw [if_neg]
    intro hcontra
    exact hline hcontra.1
  · rw [parseTagList, tagLoop_eq (splitComma s) []]
    rfl

/-- C5 witness: the header-tag rules at a concrete file, a concrete
key remainder, a concrete case-variant line and a concrete duplicate-
and-empty-token tag list. -/
theorem C5_header_tags_witness :
    (ParseFragment "f.md" ("---" :: (["ctx-tags: a, b"] ++ "---" :: ["content"])) =
      ⟨"f.md", (["ctx-tags: a, b"] : List String).flatMap tagsOfLine,
        String.intercalate "\n" ["content"]⟩) ∧
    (lineTagValue ("ctx-tags:" ++ " a, b") = some (goTrimSpace " a, b")) ∧
    (tagsOfLine "CTX-TAGS: a" = []) ∧
    (parseTagList "a, b,,a" =
      ((splitComma "a, b,,a").map goTrimSpace).filter (fun t => t ≠ "")) :=
  C5_header_tags "f.md" ["ctx-tags: a, b"] ["content"] " a, b" "CTX-TAGS: a" "a, b,,a"
    (by decide) (by decide) (by decide)

/-- Unfolding of the walk at a file node. -/
theorem walk_file (path : String) (ls : List String) :
    walkNode path (.file ls) =
      if isMarkdownPath path then [ParseFragment path ls] else [] := by
  rw [walkNode]

/-- Unfolding of the walk at a directory node: the entries are visited
in sorted name order. -/
theorem walk_dir (path : String) (es : List (String × FSNode)) :
    walkNode path (.dir es) =
      (sortEntries es).flatMap (fun e => walkNode (path ++ "/" ++ e.1) e.2) := by
  rw [walkNode]
  rw [List.flatMap_def, List.flatMap_def]
  congr 1
  exact List.attach_map_val (sortEntries es) (fun e => walkNode (path ++ "/" ++ e.1) e.2)

/-- Two entry lists that are permutations of each other with pairwise
distinct names sort to the same list. -/
theorem sortEntries_eq_of_perm (es es2 : List (String × FSNode))
    (hperm : es.Perm es2) (hnd : (es.map (fun e => e.1)).Nodup) :
    sortEntries es = sortEntries es2 := by
  have p1 : (sortEntries es).Perm es := List.perm_insertionSort entryLe es
  have p2 : (sortEntries es2).Perm es2 := List.perm_insertionSort entryLe es2
  have p : (sortEntries es).Perm (sortEntries es2) :=
    p1.trans (hperm.trans p2.symm)
  have s1 : List.Sorted entryLe (sortEntries es) :=
    List.sorted_insertionSort entryLe es
  have s2 : List.Sorted entryLe (sortEntries es2) :=
    List.sorted_insertionSort entryLe es2
  have hnd1 : ((sortEntries es).map (fun e => e.1)).Nodup :=
    ((p1.map (fun e => e.1)).nodup_iff).mpr hnd
  have hnd2 : ((sortEntries es2).map (fun e => e.1)).Nodup := by
    have hnd2a : (es2.map (fun e => e.1)).Nodup :=
      ((hperm.map (fun e => e.1)).nodup_iff).mp hnd
    exact ((p2.map (fun e => e.1)).nodup_iff).mpr hnd2a
  have strict : ∀ (l : List (String × FSNode)), List.Sorted entryLe l →
      ((l.map (fun e => e.1)).Nodup) → List.Sorted entryLt l := by
    intro l hs hn
    have hn2 : List.Pairwise (fun a b : String × FSNode => a.1 ≠ b.1) l :=
      List.pairwise_map.mp hn
    apply (hs.and hn2).imp
    intro a b hab
    have hne : a.1.toList ≠ b.1.toList := by
      intro h
      exact hab.2 (String.toList_inj.mp h)
    exact lt_of_le_of_ne hab.1 hne
  exact List.eq_of_perm_of_sorted p (strict _ s1 hnd1) (strict _ s2 hnd2)

/-- C10 counterexample: a directory a next to a file a.md: the walk
descends into a first, so frag/a/x.md is emitted before frag/a.md
although frag/a.md is strictly smaller in the lexical order on paths:
the output is not lexically ordered by path. -/
theorem C10_counterexample :
    (ScanFragments "frag" (.dir [("a", .dir [("x.md", .file ["inner"])]),
        ("a.md", .file ["outer"])])).map (fun f => f.path) =
      ["frag/a/x.md", "frag/a.md"] ∧
    ("frag/a.md" : String) < "frag/a/x.md" := by
  constructor
  · rw [ScanFragments, walk_dir]
    have hs : sortEntries [("a", FSNode.dir [("x.md", FSNode.file ["inner"])]),
        ("a.md", FSNode.file ["outer"])] =
        [("a", FSNode.dir [("x.md", FSNode.file ["inner"])]),
          ("a.md", FSNode.file ["outer"])] := rfl
    rw [hs]
    simp only [List.flatMap_cons, List.flatMap_nil]
    rw [walk_dir]
    have hs2 : sortEntries [("x.md", FSNode.file ["inner"])] =
        [("x.md", FSNode.file ["inner"])] := rfl
    rw [hs2]
    simp only [List.flatMap_cons, List.flatMap_nil]
    rw [walk_file, walk_file]
    decide
  · rw [String.lt_iff_toList_lt]
    decide

/-- C10 (amended): fragment scanning visits each directory's entries in
lexical order of their names, so the scan result is deterministic and
independent of the storage's native entry ordering (permuting a
directory's entries, whose names are distinct on a real filesystem,
leaves the result unchanged); the resulting fragment sequence is
however not always lexically ordered by full path (see the
counterexample). -/
theorem C10_scan_order (path : String) (es es2 : List (String × FSNode))
    (hperm : es.Perm es2) (hnd : (es.map (fun e => e.1)).Nodup) :
    ScanFragments path (.dir es) = ScanFragments path (.dir es2) ∧
    List.Sorted entryLe (sortEntries es) := by
  constructor
  · rw [ScanFragments, ScanFragments, walk_dir, walk_dir,
      sortEntries_eq_of_perm es es2 hperm hnd]
  · exact List.sorted_insertionSort entryLe es

/-- C10 witness: swapping the native order of two sibling markdown files
leaves the scan result unchanged. -/
theorem C10_scan_order_witness :
    (ScanFragments "frag" (.dir [("b.md", .file ["B"]), ("a.md", .file ["A"])]) =
      ScanFragments "frag" (.dir [("a.md", .file ["A"]), ("b.md", .file ["B"])])) ∧
    List.Sorted entryLe
      (sortEntries [("b.md", FSNode.file ["B"]), ("a.md", FSNode.file ["A"])]) :=
  C10_scan_order "frag" [("b.md", FSNode.file ["B"]), ("a.md", FSNode.file ["A"])]
    [("a.md", FSNode.file ["A"]), ("b.md", FSNode.file ["B"])]
    (List.Perm.swap (("a.md", FSNode.file ["A"]) : String × FSNode)
      (("b.md", FSNode.file ["B"]) : String × FSNode) [])
    (by decide)
